import Mathlib

/-
Verification of the accessibility-tree automation module
(accessibility_automator.py) against its specification.

The module is shallowly embedded below:
- an accessibility node (talon ui.Element as consumed by the module:
  name, class_name, children) becomes the inductive `Element`;
- `Spec` mirrors the Spec class (name pattern, class pattern,
  search_indirect, case_sensitive);
- the regular-expression calls (re.search, re.escape, re.IGNORECASE)
  are modelled for the fragment of the Python regex language the
  module builds: literal characters, backslash-escaped characters and the
  anchors of exact_match_re.  Python re semantics are followed:
  re.search scans every start position, and a dollar anchor matches
  at end of string or immediately before a final newline.  Case
  folding is modelled on ASCII via Char.toLower, which agrees with
  Python on every string appearing in this development;
- the generator automator_find_elements_from_roots becomes a function
  returning the full list of yielded elements in yield order, paired
  with the Python exception (if any) that terminates the generator;
  an explicit list plays the role of the LifoQueue, head = top.

Note on line 207 of the source: the expression re.NONE is evaluated
whenever a name pattern is tested with case_sensitive = True.  The
Python re module has no attribute NONE (the zero flag is NOFLAG), so
that evaluation raises AttributeError.  This is modelled by PyError.
-/

inductive Element where
  | mk (name : String) (class_name : String) (children : List Element)

def Element.name : Element → String
  | .mk n _ _ => n

def Element.class_name : Element → String
  | .mk _ c _ => c

def Element.children : Element → List Element
  | .mk _ _ cs => cs

mutual

def Element.size : Element → Nat
  | .mk _ _ cs => 1 + Element.sizeList cs

def Element.sizeList : List Element → Nat
  | [] => 0
  | c :: cs => Element.size c + Element.sizeList cs

end

structure Spec where
  name : Option String
  class_name : Option String
  search_indirect : Bool
  case_sensitive : Bool
deriving DecidableEq

/-- Python exceptions other than ElementNotFoundError that the embedded
code can raise.  attributeError models the AttributeError raised when
the source evaluates re.NONE, an attribute the re module does not have. -/
inductive PyError where
  | attributeError
deriving DecidableEq

/- ----------------------------------------------------------------
   Model of the fragment of Python regular expressions used by the
   module: tokens are literal characters (possibly backslash-escaped)
   and the two anchors.
   ---------------------------------------------------------------- -/

inductive RTok where
  | caret
  | dollar
  | lit (c : Char)
deriving DecidableEq

/-- Characters escaped by re.escape in Python 3.7+ (the special-character
map of the re module).  Braces are written with hex escapes. -/
def reSpecialChars : List Char :=
  ['(', ')', '[', ']', '\x7b', '\x7d', '?', '*', '+', '-', '|', '^', '$',
   '\\', '.', '&', '~', '#', ' ', '\t', '\n', '\r', '\x0b', '\x0c']

def reEscapeChar (c : Char) : List Char :=
  if c ∈ reSpecialChars then ['\\', c] else [c]

def reEscapeList : List Char → List Char
  | [] => []
  | c :: cs => reEscapeChar c ++ reEscapeList cs

/-- Model of re.escape. -/
def reEscape (s : String) : String :=
  ⟨reEscapeList s.data⟩

/-- Parse a pattern string into tokens.  A backslash makes the next
character a literal; unescaped caret and dollar are anchors; any other
character is a literal.  (A trailing lone backslash is a re.error in
Python; no pattern built by the module produces one, and the parser
maps it to the empty continuation.) -/
def parsePattern : List Char → List RTok
  | [] => []
  | c :: rest =>
    if c = '\\' then
      match rest with
      | [] => []
      | d :: rest2 => .lit d :: parsePattern rest2
    else if c = '^' then .caret :: parsePattern rest
    else if c = '$' then .dollar :: parsePattern rest
    else .lit c :: parsePattern rest

/-- Character comparison, optionally under re.IGNORECASE (ASCII model). -/
def charMatches (ignoreCase : Bool) (p c : Char) : Bool :=
  if ignoreCase then p.toLower == c.toLower else p == c

/-- Match a token list against the suffix of `full` starting at index
`i`.  The caret matches only at index 0 (no MULTILINE flag is ever
passed by the module); the dollar matches at the end of the string or
immediately before a newline that ends the string, as in Python. -/
def matchFrom (full : List Char) (ignoreCase : Bool) : List RTok → Nat → Bool
  | [], _ => true
  | .caret :: ts, i => decide (i = 0) && matchFrom full ignoreCase ts i
  | .dollar :: ts, i =>
    (decide (i = full.length) ||
      (decide (i + 1 = full.length) && (full[i]? == some '\n'))) &&
      matchFrom full ignoreCase ts i
  | .lit p :: ts, i =>
    match full[i]? with
    | some c => charMatches ignoreCase p c && matchFrom full ignoreCase ts (i + 1)
    | none => false

/-- Model of re.search: try every start position from left to right;
the result is whether any position matches. -/
def reSearch (pat s : String) (ignoreCase : Bool) : Bool :=
  (List.range (s.data.length + 1)).any fun i =>
    matchFrom s.data ignoreCase (parsePattern pat.data) i

/-- Source, exact_match_re: anchored, fully escaped match of a literal
string. -/
def exact_match_re (s : String) : String :=
  "^" ++ reEscape s ++ "$"

/- ----------------------------------------------------------------
   Spec evaluation against one node, mirroring lines 203-211 of the
   source.  A name pattern evaluated with case_sensitive = True first
   evaluates the flags argument re.NONE, which raises AttributeError.
   ---------------------------------------------------------------- -/

def specNameMatches (spec : Spec) (e : Element) : Except PyError Bool :=
  match spec.name with
  | none => .ok true
  | some pat =>
    if spec.case_sensitive then .error .attributeError
    else .ok (reSearch pat e.name true)

def specClassMatches (spec : Spec) (e : Element) : Bool :=
  match spec.class_name with
  | none => true
  | some pat => reSearch pat e.class_name false

/-- Combined predicate of one stage: name_matches and class_matches. -/
def specTest (spec : Spec) (e : Element) : Except PyError Bool :=
  match specNameMatches spec e with
  | .error err => .error err
  | .ok nm => .ok (nm && specClassMatches spec e)

/- ----------------------------------------------------------------
   The search engine, automator_find_elements_from_roots
   (lines 191-222 of the source).  The LifoQueue is a list whose head
   is the top of the stack; queue.put conses, queue.get pops the head.
   The generator is modelled as the list of elements it yields, in
   yield order, together with the exception (if any) that ends it: a
   raised exception stops the generator, so no yields follow it.
   ---------------------------------------------------------------- -/

def stackSize : List (Element × List Spec) → Nat
  | [] => 0
  | f :: rest => Element.size f.1 + stackSize rest

def stackSize_append : ∀ l1 l2 : List (Element × List Spec),
    stackSize (l1 ++ l2) = stackSize l1 + stackSize l2 := by
  intro l1 l2
  induction l1 with
  | nil => simp [stackSize]
  | cons f rest ih => simp [stackSize, ih]; omega

def stackSize_reverse : ∀ l : List (Element × List Spec),
    stackSize l.reverse = stackSize l := by
  intro l
  induction l with
  | nil => rfl
  | cons f rest ih => simp [List.reverse_cons, stackSize_append, stackSize, ih]; omega

def stackSize_map_pair : ∀ (cs : List Element) (sp : List Spec),
    stackSize (cs.map fun c => (c, sp)) = Element.sizeList cs := by
  intro cs sp
  induction cs with
  | nil => rfl
  | cons c cs ih => simp [stackSize, Element.sizeList, ih]

def Element.size_pos : ∀ e : Element, 1 ≤ Element.size e := by
  intro e; cases e; simp [Element.size]

def Element.size_children : ∀ e : Element,
    Element.size e = 1 + Element.sizeList e.children := by
  intro e; cases e; rfl

/-- One run of the while-loop of automator_find_elements_from_roots,
starting from a given stack.  Each iteration pops the head frame.  An
empty remaining-spec list discards the frame; otherwise the head spec
is evaluated: on a match the frame either yields (final stage) or the
children are pushed with the reduced suffix; on a non-match with
search_indirect the children are pushed with the same unreduced
suffix; otherwise the frame is dropped.  Pushing a list of children in
order leaves the last child on top, hence the reversed append. -/
def findElementsLoop : List (Element × List Spec) → List Element × Option PyError
  | [] => ([], none)
  | (e, specs) :: rest =>
    match specs with
    | [] => findElementsLoop rest
    | spec :: tail =>
      match specTest spec e with
      | .error err => ([], some err)
      | .ok matched =>
        if matched then
          if tail = [] then
            let r := findElementsLoop rest
            (e :: r.1, r.2)
          else
            findElementsLoop ((e.children.map fun c => (c, tail)).reverse ++ rest)
        else if spec.search_indirect then
          findElementsLoop ((e.children.map fun c => (c, spec :: tail)).reverse ++ rest)
        else
          findElementsLoop rest
termination_by st => stackSize st
decreasing_by
  all_goals simp [stackSize, stackSize_append, stackSize_reverse, stackSize_map_pair,
    Element.size_children]

/-- Source lines 191-197: seed the stack with one frame per root.
Pushing the roots in order leaves the last root on top of the stack. -/
def automator_find_elements_from_roots (roots : List Element) (specs : List Spec) :
    List Element × Option PyError :=
  findElementsLoop ((roots.map fun r => (r, specs)).reverse)

/- ----------------------------------------------------------------
   Whole-desktop root enumeration, automator_find_elements
   (lines 225-245 of the source).
   ---------------------------------------------------------------- -/

/-- A top-level window as read by the module: the hidden and minimized
flags, and the accessibility element; none models window.element
raising OSError. -/
structure Window where
  hidden : Bool
  minimized : Bool
  element : Option Element

/-- Model of the Python str.lower method (ASCII). -/
def pyLower (s : String) : String :=
  ⟨s.data.map Char.toLower⟩

/-- Model of the Python substring test needle in haystack. -/
def strContainsSub (hay needle : String) : Bool :=
  (List.range (hay.data.length + 1)).any fun i =>
    (hay.data.drop i).take needle.data.length == needle.data

/-- The fixed browser identifiers of line 238.  The source iterates a
Python set literal, whose order is unspecified; every append performed
inside that inner loop appends the same element, so the lists produced
do not depend on the iteration order, and a fixed order is used here. -/
def browserIdentifiers : List String :=
  ["firefox", "chrome", "edge", "safari", "brave"]

/-- The enumeration loop of lines 229-242.  Hidden or minimized
windows and windows whose element raises OSError are skipped.  For
each remaining element, the inner loop appends it to browser_windows
once per browser identifier contained in its lowercased name; the
continue statement on line 241 only ends an iteration of that inner
loop, so afterwards the element is always appended to windows as
well.  Returns (windows, browser_windows). -/
def collectWindows : List Window → List Element × List Element
  | [] => ([], [])
  | w :: rest =>
    if w.hidden || w.minimized then collectWindows rest
    else
      match w.element with
      | none => collectWindows rest
      | some e =>
        let r := collectWindows rest
        (e :: r.1,
         ((browserIdentifiers.filter fun b => strContainsSub (pyLower e.name) b).map
            fun _ => e) ++ r.2)

/-- Lines 243-245: windows.extend(browser_windows), then the search is
run from reversed(windows). -/
def automator_find_elements (wins : List Window) (specs : List Spec) :
    List Element × Option PyError :=
  let r := collectWindows wins
  automator_find_elements_from_roots (r.1 ++ r.2).reverse specs

/- ----------------------------------------------------------------
   First-match resolver (lines 254-272 of the source).
   ---------------------------------------------------------------- -/

/-- The failure outcomes of a find-first call: ElementNotFoundError
(line 254, optionally carrying a Spec; the internal resolver of line
272 constructs it with no Spec), or a propagated Python exception from
the generator. -/
inductive FindError where
  | elementNotFound (spec : Option Spec)
  | pyError (err : PyError)
deriving DecidableEq

/-- Lines 265-272: take the first element of the lazy sequence; only
StopIteration (sequence exhausted with no yield and no exception) is
converted to ElementNotFoundError; an exception raised by the
generator before its first yield propagates unchanged. -/
def automator_find_first_element_internal (res : List Element × Option PyError) :
    Except FindError Element :=
  match res with
  | (e :: _, _) => .ok e
  | ([], some err) => .error (.pyError err)
  | ([], none) => .error (.elementNotFound none)

/- ----------------------------------------------------------------
   Overlay coordinator, AutomationOverlay (lines 116-179).
   ---------------------------------------------------------------- -/

/-- The process-wide overlay state: the nesting counter
canvas_context_count (a Python int), the number of live canvas
surfaces (the canvases list holds one canvas per screen while they
exist), and the LIFO overlay_text_queue with its head as the most
recent entry. -/
structure OverlayState where
  canvas_context_count : Int
  canvases : Nat
  overlay_text_queue : List String

def overlayInit : OverlayState := ⟨0, 0, []⟩

/-- AutomationOverlay.__enter__ with numScreens connected displays:
push the text override if it is a string; if the counter is 0 call
create_canvases, which creates one canvas per screen only when none
exist (on a counter greater than 0 the source names redraw_canvases
without calling it, a no-op either way for this state); finally
increment the counter.  The counter and canvases are read after the
text push, which does not touch them, so the state is assembled
directly. -/
def overlayEnter (numScreens : Nat) (textOverride : Option String) (s : OverlayState) :
    OverlayState :=
  ⟨s.canvas_context_count + 1,
   if s.canvas_context_count = 0 then
     (if s.canvases = 0 then numScreens else s.canvases)
   else s.canvases,
   match textOverride with
   | some txt => txt :: s.overlay_text_queue
   | none => s.overlay_text_queue⟩

/-- AutomationOverlay.__exit__: pop one entry (LifoQueue.get removes
the most recent) if a text override was supplied; decrement the
counter; if it reaches 0 destroy all canvases, else redraw them
(which changes nothing in this state). -/
def overlayExit (textOverride : Option String) (s : OverlayState) : OverlayState :=
  ⟨s.canvas_context_count - 1,
   if s.canvas_context_count - 1 = 0 then 0 else s.canvases,
   match textOverride with
   | some _ => s.overlay_text_queue.tail
   | none => s.overlay_text_queue⟩

/-- A balanced (well-nested) usage pattern of overlay scopes: each
scope is entered with an optional status text, runs an inner pattern,
and exits with the same text override. -/
inductive OverlayProg where
  | done
  | seq (p q : OverlayProg)
  | scope (textOverride : Option String) (p : OverlayProg)

/-- Run a balanced usage pattern from a state, collecting the state
after every individual enter and exit operation, together with the
final state. -/
def overlayTrace (numScreens : Nat) : OverlayProg → OverlayState → List OverlayState × OverlayState
  | .done, s => ([], s)
  | .seq p q, s =>
    let r1 := overlayTrace numScreens p s
    let r2 := overlayTrace numScreens q r1.2
    (r1.1 ++ r2.1, r2.2)
  | .scope t p, s =>
    let s1 := overlayEnter numScreens t s
    let r := overlayTrace numScreens p s1
    let s2 := overlayExit t r.2
    (s1 :: r.1 ++ [s2], s2)

/-- The internal consistency property of the overlay state: the
counter is nonnegative and surfaces exist exactly when it is
positive. -/
def OverlayInv (s : OverlayState) : Prop :=
  0 ≤ s.canvas_context_count ∧ (0 < s.canvases ↔ 0 < s.canvas_context_count)

/- ----------------------------------------------------------------
   Tray navigator, automator_get_tray_icon_windows (lines 411-448).
   ---------------------------------------------------------------- -/

/-- Externally visible actions the navigator dispatches to the host. -/
inductive UIAction where
  | keyPress (chord : String)
  | sleepFor (duration : String)
  | mouseMoveToClickable (e : Element)
  | mouseClick (button : Nat)

/-- click_element (lines 289-292): move the pointer to the clickable
point of the element, then click. -/
def click_element (e : Element) (button : Nat) : List UIAction :=
  [.mouseMoveToClickable e, .mouseClick button]

/-- The oracle for the three find-first calls the navigator makes
against the live, mutating desktop tree, and for the start-menu scan
of automator_close_start_menu.  The tree is an external capability, so
each lookup result is supplied by the environment. -/
structure TrayEnv where
  startMenuOpen : Bool
  mainResult : Except FindError Element
  hiddenItemsResult : Except FindError Element
  overflowResult : Except FindError Element

/-- automator_close_start_menu (lines 389-404), with the scan of the
window list abstracted to whether a start-menu window is found: if so,
press the start key and wait; otherwise do nothing. -/
def automator_close_start_menu (startMenuOpen : Bool) : List UIAction :=
  if startMenuOpen then [.keyPress "win", .sleepFor "500ms"] else []

/-- automator_get_tray_icon_windows (lines 411-448): reset the start
menu, open the tray, run the primary search (only ElementNotFoundError
is caught there); on failure find and click the hidden-items button
(failures of that search propagate), then run the overflow search; if
that also fails with ElementNotFoundError, perform the recovery key
and click sequence of lines 443-447 and re-raise the original error.
Returns the dispatched actions in order, with the outcome. -/
def automator_get_tray_icon_windows (env : TrayEnv) :
    List UIAction × Except FindError Element :=
  let t0 := automator_close_start_menu env.startMenuOpen ++
    [.keyPress "win", .sleepFor "500ms"]
  match env.mainResult with
  | .ok e => (t0, .ok e)
  | .error (.pyError p) => (t0, .error (.pyError p))
  | .error (.elementNotFound _) =>
    match env.hiddenItemsResult with
    | .error err => (t0, .error err)
    | .ok btn =>
      let t1 := t0 ++ click_element btn 0 ++ [.sleepFor "100ms"]
      match env.overflowResult with
      | .ok e => (t1, .ok e)
      | .error (.pyError p) => (t1, .error (.pyError p))
      | .error (.elementNotFound s) =>
        (t1 ++ [.keyPress "win", .sleepFor "200ms"] ++ click_element btn 0 ++
          [.sleepFor "200ms", .keyPress "win"],
         .error (.elementNotFound s))

/- ----------------------------------------------------------------
   Concrete inputs used by counterexamples and witnesses.
   ---------------------------------------------------------------- -/

/-- A stage with both patterns None: the structural passthrough Spec. -/
def allNoneSpec : Spec := ⟨none, none, false, false⟩

def elemA : Element := .mk "A" "wa" []
def elemB : Element := .mk "B" "wb" []

def child1 : Element := .mk "C1" "wc" []
def child2 : Element := .mk "C2" "wc" []
def parentEl : Element := .mk "P" "wp" [child1, child2]

def elemGrand : Element := .mk "X" "grand" []
def elemMid : Element := .mk "B" "mid" [elemGrand]
def elemTop : Element := .mk "A" "top" [elemMid]
def specIndirect : Spec := ⟨some "X", none, true, false⟩
def specDirect : Spec := ⟨some "X", none, false, false⟩

def taskbarElem : Element := .mk "Taskbar" "Shell_TrayWnd" []

def chromeElem : Element := .mk "Chrome" "ww" []
def notepadElem : Element := .mk "Notepad" "ww" []
def chromeWindow : Window := ⟨false, false, some chromeElem⟩
def notepadWindow : Window := ⟨false, false, some notepadElem⟩

def trayButtonEx : Element := .mk "Show Hidden Icons" "SystemTray.NormalButton" []

def trayEnvEx : TrayEnv :=
  ⟨false, .error (.elementNotFound none), .ok trayButtonEx, .error (.elementNotFound none)⟩

/- ================================================================
   Helper lemmas
   ================================================================ -/

theorem findElementsLoop_nil : findElementsLoop [] = ([], none) := by
  rw [findElementsLoop.eq_def]

/-- Every frame of the stack carrying the single-stage all-None path
yields its element and pushes nothing, so the loop returns the stack
elements in stack order. -/
theorem findElementsLoop_allNoneSingle :
    ∀ stack : List (Element × List Spec),
      (∀ f ∈ stack, f.2 = [allNoneSpec]) →
      findElementsLoop stack = (stack.map fun f => f.1, none) := by
  intro stack
  induction stack with
  | nil => intro _; simp [findElementsLoop_nil]
  | cons f rest ih =>
    intro h
    obtain ⟨e, specs⟩ := f
    have hf : specs = [allNoneSpec] := h (e, specs) (List.mem_cons_self _ _)
    subst hf
    have hrest := ih fun f hf => h f (List.mem_cons_of_mem _ hf)
    rw [findElementsLoop.eq_def]
    simp [allNoneSpec, specTest, specNameMatches, specClassMatches, hrest]

/-- Stepping the loop on a frame whose node satisfies a non-final
stage: the children are pushed with the reduced suffix. -/
theorem findElementsLoop_step_match_nonfinal (e : Element) (spec : Spec) (tail : List Spec)
    (rest : List (Element × List Spec)) (hm : specTest spec e = .ok true) (ht : tail ≠ []) :
    findElementsLoop ((e, spec :: tail) :: rest) =
      findElementsLoop ((e.children.map fun c => (c, tail)).reverse ++ rest) := by
  rw [findElementsLoop.eq_def]
  simp [hm, ht]

/-- Stepping the loop on a frame whose node satisfies a final stage:
the node is yielded and the loop continues with the rest of the
stack. -/
theorem findElementsLoop_step_yield (e : Element) (spec : Spec)
    (rest : List (Element × List Spec)) (hm : specTest spec e = .ok true) :
    findElementsLoop ((e, [spec]) :: rest) =
      (e :: (findElementsLoop rest).1, (findElementsLoop rest).2) := by
  rw [findElementsLoop.eq_def]
  simp [hm]

/-- Stepping the loop on a frame whose node fails an indirect stage:
the children are pushed with the same unreduced suffix. -/
theorem findElementsLoop_step_fail_indirect (e : Element) (spec : Spec) (tail : List Spec)
    (rest : List (Element × List Spec)) (hm : specTest spec e = .ok false)
    (hi : spec.search_indirect = true) :
    findElementsLoop ((e, spec :: tail) :: rest) =
      findElementsLoop ((e.children.map fun c => (c, spec :: tail)).reverse ++ rest) := by
  rw [findElementsLoop.eq_def]
  simp [hm, hi]

/-- Stepping the loop on a frame whose node fails a non-indirect
stage: the frame is dropped and no descendant frame is pushed. -/
theorem findElementsLoop_step_fail_direct (e : Element) (spec : Spec) (tail : List Spec)
    (rest : List (Element × List Spec)) (hm : specTest spec e = .ok false)
    (hi : spec.search_indirect = false) :
    findElementsLoop ((e, spec :: tail) :: rest) = findElementsLoop rest := by
  rw [findElementsLoop.eq_def]
  simp [hm, hi]

/-- Frames carrying an empty suffix are discarded without effect. -/
theorem findElementsLoop_emptySpecs :
    ∀ stack : List (Element × List Spec),
      (∀ f ∈ stack, f.2 = ([] : List Spec)) →
      findElementsLoop stack = ([], none) := by
  intro stack
  induction stack with
  | nil => intro _; exact findElementsLoop_nil
  | cons f rest ih =>
    intro h
    obtain ⟨e, specs⟩ := f
    have hf : specs = [] := h (e, specs) (List.mem_cons_self _ _)
    subst hf
    have hrest := ih fun f hf => h f (List.mem_cons_of_mem _ hf)
    rw [findElementsLoop.eq_def]
    simpa using hrest

/- ================================================================
   Claim theorems
   ================================================================ -/

/-- Claim C2 (amended): the engine seeds its stack with one frame per
root in the supplied order, so under LIFO popping the pop order is the
reverse of the supplied root order, the last root supplied being
processed first; for a single-stage path whose Spec has both patterns
None the roots are yielded in reverse of the order supplied.  (The
whole-desktop caller compensates by reversing its window list before
handing it to the engine.) -/
theorem c2_single_stage_allNone_yields_reverse (roots : List Element) :
    automator_find_elements_from_roots roots [allNoneSpec] = (roots.reverse, none) := by
  unfold automator_find_elements_from_roots
  rw [findElementsLoop_allNoneSingle]
  · simp
    rw [show ((fun f : Element × List Spec => f.1) ∘ fun r : Element => (r, [allNoneSpec]))
        = fun r : Element => r from rfl, List.map_id']
  · intro f hf
    rw [List.mem_reverse] at hf
    obtain ⟨r, _, rfl⟩ := List.mem_map.mp hf
    rfl

/-- Claim C2 is false as stated: with roots supplied in the order
elemA, elemB and a single all-None stage, the engine yields elemB
first, not elemA, because the seeding pushes frames in supplied order
and pop order reverses it. -/
theorem c2_counterexample :
    (automator_find_elements_from_roots [elemA, elemB] [allNoneSpec]).1.map Element.name
        = ["B", "A"]
    ∧ [elemA, elemB].map Element.name = ["A", "B"]
    ∧ (["B", "A"] : List String) ≠ ["A", "B"] := by
  have h : automator_find_elements_from_roots [elemA, elemB] [allNoneSpec]
      = ([elemB, elemA], none) := by
    unfold automator_find_elements_from_roots
    rw [findElementsLoop_allNoneSingle]
    · rfl
    · intro f hf
      simp at hf
      rcases hf with rfl | rfl <;> rfl
  rw [h]
  exact ⟨rfl, rfl, by decide⟩

/-- Claim C3 (amended): when a node satisfies a non-final stage, the
engine pushes one frame per child paired with the remaining suffix in
the supplied child order, so under LIFO popping the children are
processed right to left: with a two-stage all-None path the children
are yielded in reverse child order, a match under a later child being
yielded before any match under an earlier child. -/
theorem c3_children_yielded_in_reverse (nm cl : String) (cs : List Element) :
    automator_find_elements_from_roots [Element.mk nm cl cs] [allNoneSpec, allNoneSpec]
      = (cs.reverse, none) := by
  unfold automator_find_elements_from_roots
  have hstack : (([Element.mk nm cl cs]).map fun r => (r, [allNoneSpec, allNoneSpec])).reverse
      = [(Element.mk nm cl cs, [allNoneSpec, allNoneSpec])] := by simp
  rw [hstack, findElementsLoop_step_match_nonfinal _ _ _ _ (by rfl) (by simp),
    List.append_nil, findElementsLoop_allNoneSingle]
  · simp [Element.children]
    rw [show ((fun f : Element × List Spec => f.1) ∘ fun c : Element => (c, [allNoneSpec]))
        = fun c : Element => c from rfl, List.map_id']
  · intro f hf
    rw [List.mem_reverse] at hf
    obtain ⟨c, _, rfl⟩ := List.mem_map.mp hf
    rfl

/-- Claim C3 is false as stated: a parent with children child1, child2
under a two-stage all-None path yields the match under the later child
(child2) before the match under the earlier child (child1). -/
theorem c3_counterexample :
    (automator_find_elements_from_roots [parentEl] [allNoneSpec, allNoneSpec]).1.map Element.name
        = ["C2", "C1"]
    ∧ parentEl.children.map Element.name = ["C1", "C2"]
    ∧ (["C2", "C1"] : List String) ≠ ["C1", "C2"] := by
  have h : automator_find_elements_from_roots [parentEl] [allNoneSpec, allNoneSpec]
      = ([child2, child1], none) := by
    unfold automator_find_elements_from_roots
    rw [show ([parentEl].map fun r => (r, [allNoneSpec, allNoneSpec])).reverse
        = [(parentEl, [allNoneSpec, allNoneSpec])] by simp]
    rw [findElementsLoop_step_match_nonfinal _ _ _ _ (by rfl) (by simp),
      List.append_nil, findElementsLoop_allNoneSingle]
    · rfl
    · intro f hf
      simp [parentEl, Element.children] at hf
      rcases hf with rfl | rfl <;> rfl
  rw [h]
  exact ⟨rfl, rfl, by decide⟩

/-- Claim C10: searching with an empty Spec sequence yields no
elements (every seeded frame carries an empty suffix and is
discarded), and hence the first-match resolver raises
ElementNotFoundError regardless of the contents of the tree. -/
theorem c10_empty_path_finds_nothing (roots : List Element) :
    automator_find_elements_from_roots roots [] = ([], none)
    ∧ automator_find_first_element_internal (automator_find_elements_from_roots roots [])
        = .error (.elementNotFound none) := by
  have h : automator_find_elements_from_roots roots [] = ([], none) := by
    unfold automator_find_elements_from_roots
    apply findElementsLoop_emptySpecs
    intro f hf
    rw [List.mem_reverse] at hf
    obtain ⟨r, _, rfl⟩ := List.mem_map.mp hf
    rfl
  exact ⟨h, by rw [h]; rfl⟩

/-- Claim C5: the first-match resolver returns the head of the lazy
search sequence when there is one, and returns ElementNotFoundError
exactly when the sequence is exhausted with no yield and no raised
exception; the error constructed there attaches no Spec. -/
theorem c5_find_first_characterisation (roots : List Element) (specs : List Spec) :
    (∀ x : Element,
      automator_find_first_element_internal (automator_find_elements_from_roots roots specs)
          = .ok x
        ↔ (automator_find_elements_from_roots roots specs).1.head? = some x)
    ∧ (automator_find_first_element_internal (automator_find_elements_from_roots roots specs)
          = .error (.elementNotFound none)
        ↔ ((automator_find_elements_from_roots roots specs).1 = []
            ∧ (automator_find_elements_from_roots roots specs).2 = none)) := by
  rcases hres : automator_find_elements_from_roots roots specs with ⟨ys, err⟩
  rcases ys with _ | ⟨y, ys⟩ <;> rcases err with _ | err <;>
    simp [automator_find_first_element_internal]

/-- Claim C1: a node that fails a stage with search_indirect true has
each of its children re-queued against the same unreduced stage
suffix: searching from that node equals restarting the search from its
children with the full suffix.  A node that fails a stage with
search_indirect false is pruned together with its entire subtree: the
search from it yields nothing and raises nothing. -/
theorem c1_indirect_requeue_and_prune (spec : Spec) (tail : List Spec) (e : Element)
    (h : specTest spec e = .ok false) :
    (spec.search_indirect = true →
      automator_find_elements_from_roots [e] (spec :: tail)
        = automator_find_elements_from_roots e.children (spec :: tail))
    ∧ (spec.search_indirect = false →
      automator_find_elements_from_roots [e] (spec :: tail) = ([], none)) := by
  have hstack : (([e]).map fun r => (r, spec :: tail)).reverse = [(e, spec :: tail)] := by
    simp
  constructor
  · intro hi
    unfold automator_find_elements_from_roots
    rw [hstack, findElementsLoop_step_fail_indirect _ _ _ _ h hi, List.append_nil]
  · intro hi
    unfold automator_find_elements_from_roots
    rw [hstack, findElementsLoop_step_fail_direct _ _ _ _ h hi, findElementsLoop_nil]

/-- Witness for c1_indirect_requeue_and_prune: a three-level tree
whose grandchild alone matches name pattern X; with the indirect spec
the root search continues from the child under the same stage, with
the non-indirect spec the search from the failing root is empty. -/
theorem c1_witness :
    specTest specIndirect elemTop = .ok false
    ∧ automator_find_elements_from_roots [elemTop] [specIndirect]
        = automator_find_elements_from_roots elemTop.children [specIndirect]
    ∧ specTest specDirect elemTop = .ok false
    ∧ automator_find_elements_from_roots [elemTop] [specDirect] = ([], none) :=
  ⟨rfl, (c1_indirect_requeue_and_prune specIndirect [] elemTop rfl).1 rfl,
   rfl, (c1_indirect_requeue_and_prune specDirect [] elemTop rfl).2 rfl⟩

/-- Claim C4 (code bug): with case_sensitive false the name pattern
taskbar matches the node named Taskbar, and class matching ignores
case_sensitive and is case sensitive; but evaluating a name pattern
with case_sensitive true raises AttributeError, because line 207
evaluates re.NONE, an attribute the Python re module does not define,
instead of performing a case-sensitive match that merely fails. -/
theorem c4_case_sensitivity_evaluation :
    specTest ⟨some "taskbar", none, false, false⟩ taskbarElem = .ok true
    ∧ specTest ⟨some "taskbar", none, false, true⟩ taskbarElem = .error .attributeError
    ∧ specTest ⟨none, some "shell_traywnd", false, false⟩ taskbarElem = .ok false
    ∧ specTest ⟨none, some "Shell_TrayWnd", false, false⟩ taskbarElem = .ok true :=
  ⟨rfl, rfl, rfl, rfl⟩

/-- Claim C7 (code bug): in the whole-desktop enumeration, the
continue statement of line 241 only ends an iteration of the inner
browser loop, so a browser-named window is appended to the general
window list as well as to the browser list.  With windows enumerated
as Chrome then Notepad, the browser element appears in the
non-browser portion, and after the double reversal it is the first
element the engine processes and yields, before the non-browser
window. -/
theorem c7_browser_window_duplicated :
    collectWindows [chromeWindow, notepadWindow] = ([chromeElem, notepadElem], [chromeElem])
    ∧ (automator_find_elements [chromeWindow, notepadWindow] [allNoneSpec]).1
        = [chromeElem, notepadElem, chromeElem]
    ∧ chromeElem.name = "Chrome" ∧ notepadElem.name = "Notepad"
    ∧ strContainsSub (pyLower chromeElem.name) "chrome" = true
    ∧ (browserIdentifiers.filter fun b => strContainsSub (pyLower notepadElem.name) b) = [] := by
  refine ⟨rfl, ?_, rfl, rfl, rfl, rfl⟩
  have h := findElementsLoop_allNoneSingle
      [(chromeElem, [allNoneSpec]), (notepadElem, [allNoneSpec]), (chromeElem, [allNoneSpec])]
      (by intro f hf; simp at hf; rcases hf with rfl | rfl | rfl <;> rfl)
  show (findElementsLoop
      [(chromeElem, [allNoneSpec]), (notepadElem, [allNoneSpec]), (chromeElem, [allNoneSpec])]).1
      = [chromeElem, notepadElem, chromeElem]
  rw [h]
  rfl

theorem overlayEnter_count (n : Nat) (t : Option String) (s : OverlayState) :
    (overlayEnter n t s).canvas_context_count = s.canvas_context_count + 1 := rfl

theorem overlayEnter_canvases (n : Nat) (t : Option String) (s : OverlayState) :
    (overlayEnter n t s).canvases =
      if s.canvas_context_count = 0 then
        (if s.canvases = 0 then n else s.canvases)
      else s.canvases := rfl

theorem overlayExit_count (t : Option String) (s : OverlayState) :
    (overlayExit t s).canvas_context_count = s.canvas_context_count - 1 := rfl

theorem overlayExit_canvases (t : Option String) (s : OverlayState) :
    (overlayExit t s).canvases =
      if s.canvas_context_count - 1 = 0 then 0 else s.canvases := rfl

/-- A balanced usage pattern is counter-neutral. -/
theorem overlayTrace_count (n : Nat) (p : OverlayProg) :
    ∀ s, ((overlayTrace n p s).2).canvas_context_count = s.canvas_context_count := by
  induction p with
  | done => intro s; rfl
  | seq p q ihp ihq =>
    intro s
    simp only [overlayTrace]
    rw [ihq, ihp]
  | scope t p ih =>
    intro s
    simp only [overlayTrace]
    rw [overlayExit_count, ih, overlayEnter_count]
    omega

/-- Entering a scope preserves the overlay invariant when at least one
display is connected. -/
theorem overlayEnter_inv (n : Nat) (hn : 0 < n) (t : Option String) (s : OverlayState)
    (h : OverlayInv s) : OverlayInv (overlayEnter n t s) := by
  obtain ⟨h0, hiff⟩ := h
  constructor
  · rw [overlayEnter_count]; omega
  · rw [overlayEnter_count, overlayEnter_canvases]
    have hpos : (0 : Int) < s.canvas_context_count + 1 := by omega
    simp only [hpos, iff_true]
    by_cases hc : s.canvas_context_count = 0
    · have hcan : s.canvases = 0 := by
        by_contra hne
        have := hiff.mp (Nat.pos_of_ne_zero hne)
        omega
      simp [hc, hcan, hn]
    · have h2 : (0 : Int) < s.canvas_context_count := by omega
      have := hiff.mpr h2
      simp [hc]
      omega

/-- Exiting a scope whose matching enter happened preserves the
overlay invariant. -/
theorem overlayExit_inv (t : Option String) (s : OverlayState)
    (h : OverlayInv s) (h1 : 1 ≤ s.canvas_context_count) : OverlayInv (overlayExit t s) := by
  obtain ⟨h0, hiff⟩ := h
  constructor
  · rw [overlayExit_count]; omega
  · rw [overlayExit_count, overlayExit_canvases]
    by_cases hc : s.canvas_context_count - 1 = 0
    · simp [hc]
    · have h2 : (0 : Int) < s.canvas_context_count := by omega
      have h3 := hiff.mpr h2
      simp [hc]
      exact iff_of_true h3 (by omega)

theorem overlayInit_inv : OverlayInv overlayInit :=
  ⟨by simp [overlayInit], by simp [overlayInit]⟩

/-- Every state reached during a balanced usage pattern from a state
satisfying the invariant satisfies the invariant. -/
theorem overlayTrace_inv (n : Nat) (hn : 0 < n) (p : OverlayProg) :
    ∀ s, OverlayInv s →
      (∀ x ∈ (overlayTrace n p s).1, OverlayInv x) ∧ OverlayInv (overlayTrace n p s).2 := by
  induction p with
  | done =>
    intro s hs
    exact ⟨by intro x hx; simp [overlayTrace] at hx, hs⟩
  | seq p q ihp ihq =>
    intro s hs
    obtain ⟨hp1, hp2⟩ := ihp s hs
    obtain ⟨hq1, hq2⟩ := ihq _ hp2
    refine ⟨?_, hq2⟩
    intro x hx
    simp only [overlayTrace, List.mem_append] at hx
    rcases hx with hx | hx
    · exact hp1 x hx
    · exact hq1 x hx
  | scope t p ih =>
    intro s hs
    have hs1 := overlayEnter_inv n hn t s hs
    obtain ⟨hp1, hp2⟩ := ih _ hs1
    have hcnt : ((overlayTrace n p (overlayEnter n t s)).2).canvas_context_count
        = s.canvas_context_count + 1 := by
      rw [overlayTrace_count, overlayEnter_count]
    have hfin : OverlayInv (overlayExit t (overlayTrace n p (overlayEnter n t s)).2) := by
      refine overlayExit_inv t _ hp2 ?_
      rw [hcnt]
      obtain ⟨h0, _⟩ := hs
      omega
    constructor
    · intro x hx
      simp only [overlayTrace, List.mem_cons, List.mem_append, List.mem_singleton,
        List.not_mem_nil, or_false] at hx
      rcases hx with (rfl | hx) | rfl
      · exact hs1
      · exact hp1 x hx
      · exact hfin
    · simpa only [overlayTrace] using hfin

/-- Claim C6: along every balanced sequence of overlay enters and
exits from the initial state, after each operation surfaces exist
exactly when the nesting counter is positive; surfaces are created
exactly on the counter transition from 0 (one per display), an enter
at positive count leaves them unchanged, an exit that brings the
counter to 0 destroys them all, and an exit at higher count leaves
them unchanged. -/
theorem c6_surfaces_iff_nesting (n : Nat) (hn : 0 < n) :
    (∀ p : OverlayProg, ∀ x ∈ (overlayTrace n p overlayInit).1,
        (0 < x.canvases ↔ 0 < x.canvas_context_count))
    ∧ (∀ (t : Option String) (s : OverlayState), OverlayInv s →
        s.canvas_context_count = 0 →
        (overlayEnter n t s).canvases = n ∧ s.canvases = 0)
    ∧ (∀ (t : Option String) (s : OverlayState), 0 < s.canvas_context_count →
        (overlayEnter n t s).canvases = s.canvases)
    ∧ (∀ (t : Option String) (s : OverlayState), s.canvas_context_count = 1 →
        (overlayExit t s).canvases = 0)
    ∧ (∀ (t : Option String) (s : OverlayState), 1 < s.canvas_context_count →
        (overlayExit t s).canvases = s.canvases) := by
  refine ⟨?_, ?_, ?_, ?_, ?_⟩
  · intro p x hx
    exact ((overlayTrace_inv n hn p overlayInit overlayInit_inv).1 x hx).2
  · intro t s hinv h0
    obtain ⟨_, hiff⟩ := hinv
    have hcan : s.canvases = 0 := by
      by_contra hne
      have := hiff.mp (Nat.pos_of_ne_zero hne)
      omega
    rw [overlayEnter_canvases]
    simp [h0, hcan]
  · intro t s hpos
    rw [overlayEnter_canvases]
    have hne : ¬ s.canvas_context_count = 0 := by omega
    simp [hne]
  · intro t s h1
    rw [overlayExit_canvases]
    simp [h1]
  · intro t s h1
    rw [overlayExit_canvases]
    have hne : ¬ (s.canvas_context_count - 1 = 0) := by omega
    simp [hne]

/-- Witness for c6_surfaces_iff_nesting: one display, entering from
the initial state creates exactly one surface where none existed. -/
theorem c6_witness :
    (0 : Nat) < 1
    ∧ ((overlayEnter 1 none overlayInit).canvases = 1 ∧ overlayInit.canvases = 0) :=
  ⟨by decide,
   (c6_surfaces_iff_nesting 1 (by decide)).2.1 none overlayInit overlayInit_inv rfl⟩

/-- Claim C8: whenever the overflow search also fails with
ElementNotFoundError (the primary search having failed that way and
the hidden-items button having been found and clicked), the recovery
sequence of lines 443-447 (start key, wait, re-click of the
hidden-items button, wait, start key) is dispatched in full, and only
then is the original ElementNotFoundError returned to the caller. -/
theorem c8_overflow_failure_runs_recovery (env : TrayEnv) (s1 s : Option Spec) (btn : Element)
    (hMain : env.mainResult = .error (.elementNotFound s1))
    (hHidden : env.hiddenItemsResult = .ok btn)
    (hOver : env.overflowResult = .error (.elementNotFound s)) :
    automator_get_tray_icon_windows env =
      (automator_close_start_menu env.startMenuOpen ++
        ([.keyPress "win", .sleepFor "500ms"] ++ click_element btn 0 ++ [.sleepFor "100ms"] ++
         [.keyPress "win", .sleepFor "200ms"] ++ click_element btn 0 ++
         [.sleepFor "200ms", .keyPress "win"]),
       .error (.elementNotFound s)) := by
  unfold automator_get_tray_icon_windows
  rw [hMain, hHidden, hOver]
  simp

/-- Witness for c8_overflow_failure_runs_recovery: a concrete
environment in which both searches fail and the hidden-items button is
found. -/
theorem c8_witness :
    trayEnvEx.mainResult = .error (.elementNotFound none)
    ∧ automator_get_tray_icon_windows trayEnvEx =
      (automator_close_start_menu trayEnvEx.startMenuOpen ++
        ([.keyPress "win", .sleepFor "500ms"] ++ click_element trayButtonEx 0 ++
         [.sleepFor "100ms"] ++
         [.keyPress "win", .sleepFor "200ms"] ++ click_element trayButtonEx 0 ++
         [.sleepFor "200ms", .keyPress "win"]),
       .error (.elementNotFound none)) :=
  ⟨rfl, c8_overflow_failure_runs_recovery trayEnvEx none none trayButtonEx rfl rfl rfl⟩

theorem exact_match_re_data (s : String) :
    (exact_match_re s).data = '^' :: (reEscapeList s.data ++ ['$']) := by
  show ("^" ++ reEscape s ++ "$").data = _
  simp [String.data_append, reEscape]

/-- Parsing an escaped character sequence produces one literal token
per original character. -/
theorem parsePattern_escape_append (ts0 : List Char) :
    ∀ cs : List Char,
      parsePattern (reEscapeList cs ++ ts0) = cs.map RTok.lit ++ parsePattern ts0 := by
  intro cs
  induction cs with
  | nil => simp [reEscapeList]
  | cons c cs ih =>
    rw [reEscapeList]
    by_cases hc : c ∈ reSpecialChars
    · rw [reEscapeChar, if_pos hc]
      simp [parsePattern, ih]
    · rw [reEscapeChar, if_neg hc]
      have h1 : c ≠ '\\' := by rintro rfl; exact hc (by decide)
      have h2 : c ≠ '^' := by rintro rfl; exact hc (by decide)
      have h3 : c ≠ '$' := by rintro rfl; exact hc (by decide)
      rw [List.singleton_append, parsePattern.eq_def]
      simp [h1, h2, h3, ih]

/-- The pattern built by exact_match_re parses to a caret, one literal
per character of the original string, and a dollar. -/
theorem parsePattern_exact_match_re (s : String) :
    parsePattern (exact_match_re s).data
      = RTok.caret :: (s.data.map RTok.lit ++ [RTok.dollar]) := by
  rw [exact_match_re_data, parsePattern.eq_def]
  simp only [if_neg (by decide : ¬('^' = '\\')), if_pos rfl]
  rw [parsePattern_escape_append]
  rw [parsePattern.eq_def]
  simp
  rw [parsePattern.eq_def]

theorem drop_cons_of_getElem (full : List Char) (i : Nat) (c : Char)
    (h : full[i]? = some c) : full.drop i = c :: full.drop (i + 1) := by
  obtain ⟨hlt, hv⟩ := List.getElem?_eq_some.mp h
  rw [List.drop_eq_getElem_cons hlt, hv]

/-- A run of literal tokens matches at position i exactly when the
string continues with those characters there, the continuation then
being matched after them (case-sensitive matching).  -/
theorem matchFrom_lits (full : List Char) (rest : List RTok) :
    ∀ (ps : List Char) (i : Nat),
      (matchFrom full false (ps.map RTok.lit ++ rest) i = true) ↔
        ((∃ suf, full.drop i = ps ++ suf)
          ∧ matchFrom full false rest (i + ps.length) = true) := by
  intro ps
  induction ps with
  | nil => intro i; simp
  | cons p ps ih =>
    intro i
    rw [List.map_cons, List.cons_append]
    cases h : full[i]? with
    | none =>
      rw [matchFrom, h]
      constructor
      · intro hfalse; cases hfalse
      · rintro ⟨⟨suf, hsuf⟩, -⟩
        have hlen : full.length ≤ i := List.getElem?_eq_none_iff.mp h
        rw [List.drop_eq_nil_of_le hlen] at hsuf
        cases hsuf
    | some c =>
      have hd := drop_cons_of_getElem full i c h
      rw [matchFrom, h]
      simp only [charMatches, if_neg Bool.false_ne_true, Bool.and_eq_true, beq_iff_eq]
      rw [ih (i + 1)]
      constructor
      · rintro ⟨hpc, ⟨suf, hsuf⟩, hm⟩
        subst hpc
        refine ⟨⟨suf, ?_⟩, ?_⟩
        · rw [hd, hsuf, List.cons_append]
        · have harith : i + (p :: ps).length = i + 1 + ps.length := by
            simp [List.length_cons]; omega
          rw [harith]
          exact hm
      · rintro ⟨⟨suf, hsuf⟩, hm⟩
        rw [hd, List.cons_append] at hsuf
        injection hsuf with hc1 hc2
        refine ⟨hc1.symm, ⟨suf, hc2⟩, ?_⟩
        have harith : i + 1 + ps.length = i + (p :: ps).length := by
          simp [List.length_cons]; omega
        rw [harith]
        exact hm

/-- A final dollar token matches at position j exactly when j is the
end of the string or just before a newline that ends the string. -/
theorem matchFrom_dollar (full : List Char) (j : Nat) :
    matchFrom full false [RTok.dollar] j = true ↔
      (j = full.length ∨ (j + 1 = full.length ∧ full[j]? = some '\n')) := by
  rw [matchFrom]
  simp [matchFrom]

/-- Claim C9 (amended): the exact-match pattern built from s is
anchored and fully escaped, and under re.search it matches t exactly
when t equals s or t equals s followed by one trailing newline (a
Python dollar anchor also matches just before a newline that ends the
string). -/
theorem c9_exact_match_iff (s t : String) :
    reSearch (exact_match_re s) t false = true ↔ (t = s ∨ t = s ++ "\n") := by
  rw [reSearch]
  simp only [parsePattern_exact_match_re]
  rw [List.any_eq_true]
  constructor
  · rintro ⟨i, hmem, hm⟩
    rw [matchFrom] at hm
    simp only [Bool.and_eq_true, decide_eq_true_eq] at hm
    obtain ⟨rfl, hm⟩ := hm
    rw [matchFrom_lits] at hm
    obtain ⟨⟨suf, hsuf⟩, hdollar⟩ := hm
    rw [List.drop_zero] at hsuf
    rw [matchFrom_dollar, Nat.zero_add] at hdollar
    rcases hdollar with hlen | ⟨hlen, hget⟩
    · left
      have hlen2 := congrArg List.length hsuf
      rw [List.length_append] at hlen2
      have hs0 : suf.length = 0 := by omega
      have hnil : suf = [] := List.eq_nil_of_length_eq_zero hs0
      subst hnil
      apply String.ext
      rw [hsuf, List.append_nil]
    · right
      have hlen2 := congrArg List.length hsuf
      rw [List.length_append] at hlen2
      have hs1 : suf.length = 1 := by omega
      obtain ⟨c, rfl⟩ : ∃ c, suf = [c] := by
        cases suf with
        | nil => simp at hs1
        | cons a l =>
          cases l with
          | nil => exact ⟨a, rfl⟩
          | cons b m => simp at hs1
      have hc : c = '\n' := by
        rw [hsuf, List.getElem?_concat_length] at hget
        exact Option.some.inj hget
      subst hc
      apply String.ext
      rw [hsuf, String.data_append]
  · intro h
    refine ⟨0, by simp, ?_⟩
    rw [matchFrom]
    simp only [Bool.and_eq_true, decide_eq_true_eq]
    refine ⟨trivial, ?_⟩
    rw [matchFrom_lits]
    rcases h with rfl | rfl
    · refine ⟨⟨[], by simp⟩, ?_⟩
      rw [matchFrom_dollar]
      left
      simp
    · refine ⟨⟨['\n'], ?_⟩, ?_⟩
      · rw [List.drop_zero, String.data_append]
      · rw [matchFrom_dollar, Nat.zero_add]
        right
        constructor
        · simp [String.data_append]
        · rw [String.data_append]
          exact List.getElem?_concat_length s.data '\n'

/-- Claim C9 is false as stated: the pattern built from the string a
matches the distinct string consisting of a followed by a newline. -/
theorem c9_counterexample :
    reSearch (exact_match_re "a") "a\n" false = true ∧ ("a\n" : String) ≠ "a" :=
  ⟨by decide, by decide⟩
